import Mathlib

set_option maxHeartbeats 1000000

/-!
Verification development for the resilience layer of the respiratory-disease
analysis system: circuit breaker state machine, retry decorator, cache
decorator, and the fallback / hybrid strategy composites.  Each definition is a
shallow embedding of the corresponding Python source in src/ai-services/.
Time stamps and delays are modelled as rationals; Python exceptions are
modelled with Except.
-/

namespace RespSys

/-! Circuit breaker (src/ai-services/circuit_breaker/circuit_breaker.py). -/

/-- Source CircuitState: CLOSED (normal), OPEN (failing fast), HALF_OPEN (probing). -/
inductive CircuitState where
  | CLOSED
  | OPEN
  | HALF_OPEN
deriving DecidableEq, Repr

/-- Mutable fields and constructor parameters of the CircuitBreaker class. -/
structure CircuitBreaker where
  failure_threshold : Nat
  recovery_timeout : ℚ
  success_threshold : Nat
  failure_count : Nat
  success_count : Nat
  last_failure_time : Option ℚ
  state : CircuitState
deriving DecidableEq, Repr

/-- A freshly constructed breaker: counters zero, no failure time, CLOSED. -/
def CircuitBreaker.mkNew (ft : Nat) (rt : ℚ) (st : Nat) : CircuitBreaker :=
  { failure_threshold := ft
    recovery_timeout := rt
    success_threshold := st
    failure_count := 0
    success_count := 0
    last_failure_time := none
    state := .CLOSED }

/-- CircuitBreaker._reset: zero both counters, clear the failure time, CLOSED. -/
def CircuitBreaker.reset (cb : CircuitBreaker) : CircuitBreaker :=
  { cb with
    failure_count := 0
    success_count := 0
    last_failure_time := none
    state := .CLOSED }

/-- CircuitBreaker._on_success: in HALF_OPEN count the success and reset once the
success threshold is reached; otherwise zero the failure count. -/
def CircuitBreaker.onSuccess (cb : CircuitBreaker) : CircuitBreaker :=
  if cb.state = .HALF_OPEN then
    let cb1 := { cb with success_count := cb.success_count + 1 }
    if cb1.success_threshold ≤ cb1.success_count then cb1.reset else cb1
  else
    { cb with failure_count := 0 }

/-- CircuitBreaker._on_failure: count the failure, record the failure time; from
HALF_OPEN go back to OPEN zeroing the success count, from elsewhere go to OPEN
once the failure threshold is reached. -/
def CircuitBreaker.onFailure (cb : CircuitBreaker) (now : ℚ) : CircuitBreaker :=
  let cb1 := { cb with
    failure_count := cb.failure_count + 1
    last_failure_time := some now }
  if cb1.state = .HALF_OPEN then
    { cb1 with state := .OPEN, success_count := 0 }
  else if cb1.failure_threshold ≤ cb1.failure_count then
    { cb1 with state := .OPEN }
  else
    cb1

/-- CircuitBreaker._should_attempt_reset: true when no failure time is recorded,
else when the recovery timeout has elapsed since the last failure. -/
def CircuitBreaker.shouldAttemptReset (cb : CircuitBreaker) (now : ℚ) : Bool :=
  match cb.last_failure_time with
  | none => true
  | some t => decide (cb.recovery_timeout ≤ now - t)

/-- Errors a protected call can surface: the fast-fail raise
Exception("Circuit breaker is OPEN") (the CircuitOpenError of the spec), or the
wrapped function's own error. -/
inductive CallError (E : Type) where
  | circuitOpenError : CallError E
  | fnError : E → CallError E

/-- Outcome of CircuitBreaker.call: the updated breaker, the result or error,
and whether the wrapped function was invoked. -/
structure CallOut (A E : Type) where
  breaker : CircuitBreaker
  result : Except (CallError E) A
  invoked : Bool

/-- Body of CircuitBreaker.call after the OPEN fast-fail check: run the wrapped
function; on success apply _on_success, on an expected exception apply
_on_failure and re-raise, on an unexpected exception just re-raise. -/
def CircuitBreaker.execCall {A E : Type} (cb : CircuitBreaker) (now : ℚ)
    (expected : E → Bool) (f : Except E A) : CallOut A E :=
  match f with
  | .ok a => ⟨cb.onSuccess, .ok a, true⟩
  | .error e =>
    if expected e then ⟨cb.onFailure now, .error (.fnError e), true⟩
    else ⟨cb, .error (.fnError e), true⟩

/-- CircuitBreaker.call: while OPEN, either transition to HALF_OPEN (when
_should_attempt_reset holds) and admit the call, or fast-fail without invoking
the wrapped function and without touching any state. -/
def CircuitBreaker.call {A E : Type} (cb : CircuitBreaker) (now : ℚ)
    (expected : E → Bool) (f : Except E A) : CallOut A E :=
  if cb.state = .OPEN then
    if cb.shouldAttemptReset now then
      CircuitBreaker.execCall { cb with state := .HALF_OPEN } now expected f
    else
      ⟨cb, .error .circuitOpenError, false⟩
  else
    cb.execCall now expected f

/-! OpenAI circuit breaker (src/ai-services/circuit_breaker/openai_circuit_breaker.py). -/

/-- State of OpenAICircuitBreaker: the inherited base breaker plus the
rate-limit counter, its threshold and the last rate-limit time. -/
structure OpenAICircuitBreaker where
  base : CircuitBreaker
  rate_limit_threshold : Nat
  rate_limit_count : Nat
  last_rate_limit_time : Option ℚ
deriving DecidableEq, Repr

/-- A freshly constructed OpenAI breaker with the source defaults
(failure_threshold 3, recovery_timeout 300, success_threshold 2,
rate_limit_threshold 2). -/
def OpenAICircuitBreaker.mkNew : OpenAICircuitBreaker :=
  { base := CircuitBreaker.mkNew 3 300 2
    rate_limit_threshold := 2
    rate_limit_count := 0
    last_rate_limit_time := none }

/-- OpenAICircuitBreaker._handle_rate_limit_error: bump the rate-limit counter
and set the state to OPEN once it reaches the rate-limit threshold. -/
def OpenAICircuitBreaker.handleRateLimitError (o : OpenAICircuitBreaker) :
    OpenAICircuitBreaker :=
  let o1 := { o with rate_limit_count := o.rate_limit_count + 1 }
  if o1.rate_limit_threshold ≤ o1.rate_limit_count then
    { o1 with base := { o1.base with state := .OPEN } }
  else
    o1

/-- OpenAICircuitBreaker._handle_api_error: billing error codes open the
circuit immediately (no other field is touched); other codes go through the
normal _on_failure path. -/
def OpenAICircuitBreaker.handleApiError (o : OpenAICircuitBreaker) (now : ℚ)
    (code : Option String) : OpenAICircuitBreaker :=
  if code = some "insufficient_quota" ∨ code = some "billing_hard_limit_reached" then
    { o with base := { o.base with state := .OPEN } }
  else
    { o with base := o.base.onFailure now }

/-- OpenAICircuitBreaker._on_success: the inherited handler, then zero the
rate-limit counter. -/
def OpenAICircuitBreaker.onSuccess (o : OpenAICircuitBreaker) : OpenAICircuitBreaker :=
  { o with
    base := o.base.onSuccess
    rate_limit_count := 0 }

/-- The inherited _on_failure acting on the wrapped base breaker. -/
def OpenAICircuitBreaker.onFailure (o : OpenAICircuitBreaker) (now : ℚ) :
    OpenAICircuitBreaker :=
  { o with base := o.base.onFailure now }

/-- OpenAICircuitBreaker._should_attempt_reset: only in OPEN; when any rate
limit has been counted the inherited check must hold and the rate-limit counter
must still be below its threshold. -/
def OpenAICircuitBreaker.shouldAttemptReset (o : OpenAICircuitBreaker) (now : ℚ) :
    Bool :=
  if o.base.state ≠ .OPEN then false
  else if 0 < o.rate_limit_count then
    o.base.shouldAttemptReset now && decide (o.rate_limit_count < o.rate_limit_threshold)
  else
    o.base.shouldAttemptReset now

/-- Outcome of a call through the OpenAI breaker. -/
structure OACallOut (A E : Type) where
  breaker : OpenAICircuitBreaker
  result : Except (CallError E) A
  invoked : Bool

/-- Body of the inherited call after the OPEN fast-fail check, with the
overridden _on_success (expected_exception is Exception, so every error is
counted). -/
def OpenAICircuitBreaker.execCall {A E : Type} (o : OpenAICircuitBreaker)
    (now : ℚ) (f : Except E A) : OACallOut A E :=
  match f with
  | .ok a => ⟨o.onSuccess, .ok a, true⟩
  | .error e => ⟨o.onFailure now, .error (.fnError e), true⟩

/-- The inherited CircuitBreaker.call as dispatched on an OpenAI breaker: the
overridden _should_attempt_reset and _on_success are used. -/
def OpenAICircuitBreaker.call {A E : Type} (o : OpenAICircuitBreaker) (now : ℚ)
    (f : Except E A) : OACallOut A E :=
  if o.base.state = .OPEN then
    if o.shouldAttemptReset now then
      OpenAICircuitBreaker.execCall { o with base := { o.base with state := .HALF_OPEN } } now f
    else
      ⟨o, .error .circuitOpenError, false⟩
  else
    o.execCall now f

/-! Helper lemmas and concrete breakers used by the theorems below. -/

/-- Whenever the body of call is reached, the wrapped function is invoked. -/
theorem execCall_invoked {A E : Type} (cb : CircuitBreaker) (now : ℚ)
    (expected : E → Bool) (f : Except E A) :
    (cb.execCall now expected f).invoked = true := by
  unfold CircuitBreaker.execCall
  cases f with
  | ok a => rfl
  | error e =>
    by_cases h : expected e = true
    · simp [h]
    · simp [h]

/-- Resetting after a success-count update is the same as resetting directly. -/
theorem reset_after_sc (cb : CircuitBreaker) (x : Nat) :
    CircuitBreaker.reset { cb with success_count := x } = cb.reset := rfl

/-- Iterating _on_success from HALF_OPEN exactly until the success threshold is
reached lands on the reset breaker. -/
theorem onSuccess_iterate (k : Nat) :
    ∀ cb : CircuitBreaker, cb.state = .HALF_OPEN →
      cb.success_count + k = cb.success_threshold → 1 ≤ k →
      CircuitBreaker.onSuccess^[k] cb = cb.reset := by
  induction k with
  | zero => intro cb _ _ h1; exact absurd h1 (by omega)
  | succ k ih =>
    rintro ⟨ft, rt, st, fc, sc, lft, s⟩ hst hsum _
    change s = CircuitState.HALF_OPEN at hst
    subst hst
    change sc + (k + 1) = st at hsum
    rw [Function.iterate_succ_apply]
    have hone : CircuitBreaker.onSuccess ⟨ft, rt, st, fc, sc, lft, .HALF_OPEN⟩ =
        if st ≤ sc + 1 then CircuitBreaker.reset ⟨ft, rt, st, fc, sc + 1, lft, .HALF_OPEN⟩
        else ⟨ft, rt, st, fc, sc + 1, lft, .HALF_OPEN⟩ := by
      unfold CircuitBreaker.onSuccess
      rfl
    by_cases hk : k = 0
    · subst hk
      rw [hone, if_pos (by omega)]
      rfl
    · rw [hone, if_neg (by omega)]
      exact ih ⟨ft, rt, st, fc, sc + 1, lft, .HALF_OPEN⟩ rfl (by change sc + 1 + k = st; omega)
        (by omega)

/-- A CLOSED breaker two failures away from its threshold. -/
def cbClosedEx : CircuitBreaker := CircuitBreaker.mkNew 2 60 2

/-- An OPEN breaker whose last failure was at time 0. -/
def cbOpenEx : CircuitBreaker := ⟨5, 60, 2, 5, 0, some 0, .OPEN⟩

/-- A fresh breaker with failure threshold 1. -/
def cbFresh1 : CircuitBreaker := CircuitBreaker.mkNew 1 60 2

/-- A HALF_OPEN breaker one success away from its success threshold. -/
def cbHalfEx : CircuitBreaker := ⟨5, 60, 2, 3, 1, some 0, .HALF_OPEN⟩

/-- A HALF_OPEN breaker with success count 0 (the fresh probe situation). -/
def cbProbeEx : CircuitBreaker := ⟨5, 60, 2, 3, 0, some 0, .HALF_OPEN⟩

/-- An OPEN breaker with no recorded failure time. -/
def cbNoTimeEx : CircuitBreaker := ⟨5, 60, 2, 5, 0, none, .OPEN⟩

/-- An OpenAI breaker opened by two consecutive rate-limit errors; no failure
time was ever recorded on it. -/
def oaRateLimited : OpenAICircuitBreaker :=
  OpenAICircuitBreaker.mkNew.handleRateLimitError.handleRateLimitError

/-- C1: for every breaker in state CLOSED, each counted failure increments
failure_count, the state becomes OPEN exactly when failure_count reaches
failure_threshold, and a success while CLOSED resets failure_count to 0. -/
theorem C1_closed_counting (cb : CircuitBreaker) (now : ℚ)
    (h : cb.state = .CLOSED) :
    (cb.onFailure now).failure_count = cb.failure_count + 1 ∧
    ((cb.onFailure now).state = .OPEN ↔ cb.failure_threshold ≤ cb.failure_count + 1) ∧
    cb.onSuccess.failure_count = 0 := by
  obtain ⟨ft, rt, st, fc, sc, lft, s⟩ := cb
  change s = CircuitState.CLOSED at h
  subst h
  have hfail : CircuitBreaker.onFailure ⟨ft, rt, st, fc, sc, lft, .CLOSED⟩ now =
      if ft ≤ fc + 1 then ⟨ft, rt, st, fc + 1, sc, some now, .OPEN⟩
      else ⟨ft, rt, st, fc + 1, sc, some now, .CLOSED⟩ := by
    unfold CircuitBreaker.onFailure
    rfl
  refine ⟨?_, ?_, ?_⟩
  · rw [hfail]
    split <;> rfl
  · rw [hfail]
    by_cases hth : ft ≤ fc + 1
    · rw [if_pos hth]
      simp [hth]
    · rw [if_neg hth]
      simp [hth]
  · rfl

/-- C1 witness: the generic statement evaluated on a concrete CLOSED breaker. -/
theorem C1_witness :
    cbClosedEx.state = .CLOSED ∧
    ((cbClosedEx.onFailure 0).failure_count = cbClosedEx.failure_count + 1 ∧
     ((cbClosedEx.onFailure 0).state = .OPEN ↔
        cbClosedEx.failure_threshold ≤ cbClosedEx.failure_count + 1) ∧
     cbClosedEx.onSuccess.failure_count = 0) :=
  ⟨rfl, C1_closed_counting cbClosedEx 0 rfl⟩

/-- C2: a breaker in OPEN whose recovery timeout has not elapsed since the last
failure rejects the call with the circuit-open error, does not invoke the
wrapped function, and leaves the breaker completely unchanged. -/
theorem C2_open_fast_fail {A E : Type} (cb : CircuitBreaker) (now t : ℚ)
    (expected : E → Bool) (f : Except E A)
    (hs : cb.state = .OPEN) (ht : cb.last_failure_time = some t)
    (helapsed : now - t < cb.recovery_timeout) :
    cb.call now expected f = ⟨cb, .error .circuitOpenError, false⟩ := by
  have hres : cb.shouldAttemptReset now = false := by
    unfold CircuitBreaker.shouldAttemptReset
    rw [ht]
    simp [not_le.mpr helapsed]
  unfold CircuitBreaker.call
  rw [if_pos hs, if_neg (by simp [hres])]

/-- C2 witness: a concrete OPEN breaker, 1 second after its last failure with a
60 second recovery timeout, rejecting a concrete call. -/
theorem C2_witness :
    cbOpenEx.state = .OPEN ∧ cbOpenEx.last_failure_time = some 0 ∧
    (1 - 0 : ℚ) < cbOpenEx.recovery_timeout ∧
    cbOpenEx.call 1 (fun _ : Unit => true) (Except.ok (0 : Nat)) =
      ⟨cbOpenEx, .error .circuitOpenError, false⟩ :=
  ⟨rfl, rfl, by norm_num [cbOpenEx],
   C2_open_fast_fail cbOpenEx 1 0 _ _ rfl rfl (by norm_num [cbOpenEx])⟩

/-- C3 counterexample: a fresh breaker with failure threshold 1 transitions
CLOSED to OPEN on its first failure, yet failure_count is 1, not 0, after the
transition — entering OPEN does not reset both counters to zero. -/
theorem C3_counterexample :
    cbFresh1.state = .CLOSED ∧
    (cbFresh1.onFailure 0).state = .OPEN ∧
    (cbFresh1.onFailure 0).failure_count = 1 :=
  ⟨rfl, rfl, rfl⟩

/-- C3 amended: every transition entering CLOSED (the reset after enough
HALF_OPEN successes) zeroes both counters and the failure time; a transition
entering OPEN zeroes success_count when it comes from HALF_OPEN, but the
failure count is left at its just-incremented nonzero value. -/
theorem C3_amended (cb : CircuitBreaker) (now : ℚ) :
    (cb.state = .HALF_OPEN → cb.onSuccess.state = .CLOSED →
      cb.onSuccess.failure_count = 0 ∧ cb.onSuccess.success_count = 0 ∧
      cb.onSuccess.last_failure_time = none) ∧
    (cb.state = .HALF_OPEN →
      (cb.onFailure now).state = .OPEN ∧ (cb.onFailure now).success_count = 0) ∧
    (cb.state = .CLOSED → (cb.onFailure now).state = .OPEN →
      (cb.onFailure now).failure_count = cb.failure_count + 1 ∧
      (cb.onFailure now).failure_count ≠ 0) := by
  obtain ⟨ft, rt, st, fc, sc, lft, s⟩ := cb
  refine ⟨?_, ?_, ?_⟩
  · intro hst
    change s = CircuitState.HALF_OPEN at hst
    subst hst
    have hone : CircuitBreaker.onSuccess ⟨ft, rt, st, fc, sc, lft, .HALF_OPEN⟩ =
        if st ≤ sc + 1 then CircuitBreaker.reset ⟨ft, rt, st, fc, sc + 1, lft, .HALF_OPEN⟩
        else ⟨ft, rt, st, fc, sc + 1, lft, .HALF_OPEN⟩ := by
      unfold CircuitBreaker.onSuccess
      rfl
    rw [hone]
    by_cases hth : st ≤ sc + 1
    · rw [if_pos hth]
      intro _
      exact ⟨rfl, rfl, rfl⟩
    · rw [if_neg hth]
      intro hcl
      exact absurd hcl (by simp)
  · intro hst
    change s = CircuitState.HALF_OPEN at hst
    subst hst
    have hf : CircuitBreaker.onFailure ⟨ft, rt, st, fc, sc, lft, .HALF_OPEN⟩ now =
        ⟨ft, rt, st, fc + 1, 0, some now, .OPEN⟩ := by
      unfold CircuitBreaker.onFailure
      rfl
    rw [hf]
    exact ⟨rfl, rfl⟩
  · intro hst
    change s = CircuitState.CLOSED at hst
    subst hst
    have hf : CircuitBreaker.onFailure ⟨ft, rt, st, fc, sc, lft, .CLOSED⟩ now =
        if ft ≤ fc + 1 then ⟨ft, rt, st, fc + 1, sc, some now, .OPEN⟩
        else ⟨ft, rt, st, fc + 1, sc, some now, .CLOSED⟩ := by
      unfold CircuitBreaker.onFailure
      rfl
    rw [hf]
    by_cases hth : ft ≤ fc + 1
    · rw [if_pos hth]
      intro _
      exact ⟨rfl, Nat.succ_ne_zero fc⟩
    · rw [if_neg hth]
      intro hop
      exact absurd hop (by simp)

/-- C3 amended witness: the amended statement evaluated on a HALF_OPEN breaker
about to reset and on a fresh breaker about to open. -/
theorem C3_amended_witness :
    (cbHalfEx.state = .HALF_OPEN ∧ cbHalfEx.onSuccess.state = .CLOSED ∧
      (cbHalfEx.onSuccess.failure_count = 0 ∧ cbHalfEx.onSuccess.success_count = 0 ∧
       cbHalfEx.onSuccess.last_failure_time = none)) ∧
    ((cbHalfEx.onFailure 0).state = .OPEN ∧ (cbHalfEx.onFailure 0).success_count = 0) ∧
    (cbFresh1.state = .CLOSED ∧ (cbFresh1.onFailure 0).state = .OPEN ∧
      ((cbFresh1.onFailure 0).failure_count = cbFresh1.failure_count + 1 ∧
       (cbFresh1.onFailure 0).failure_count ≠ 0)) :=
  ⟨⟨rfl, rfl, (C3_amended cbHalfEx 0).1 rfl rfl⟩,
   (C3_amended cbHalfEx 0).2.1 rfl,
   ⟨rfl, rfl, (C3_amended cbFresh1 0).2.2 rfl rfl⟩⟩

/-- C4: an OPEN breaker whose recovery timeout has elapsed admits the next call
as the probe (the call runs through the HALF_OPEN body and invokes the wrapped
function); iterating success_threshold successes from a fresh HALF_OPEN probe
yields CLOSED with both counters 0; a failure while HALF_OPEN returns the state
to OPEN with success_count 0. -/
theorem C4_recovery_cycle {A E : Type} (cb cbh : CircuitBreaker) (now t : ℚ)
    (expected : E → Bool) (f : Except E A) :
    (cb.state = .OPEN → cb.last_failure_time = some t →
      cb.recovery_timeout ≤ now - t →
      cb.call now expected f =
        CircuitBreaker.execCall { cb with state := .HALF_OPEN } now expected f ∧
      (cb.call now expected f).invoked = true) ∧
    (cbh.state = .HALF_OPEN → cbh.success_count = 0 → 1 ≤ cbh.success_threshold →
      (CircuitBreaker.onSuccess^[cbh.success_threshold] cbh).state = .CLOSED ∧
      (CircuitBreaker.onSuccess^[cbh.success_threshold] cbh).failure_count = 0 ∧
      (CircuitBreaker.onSuccess^[cbh.success_threshold] cbh).success_count = 0) ∧
    (cbh.state = .HALF_OPEN →
      (cbh.onFailure now).state = .OPEN ∧ (cbh.onFailure now).success_count = 0) := by
  refine ⟨?_, ?_, ?_⟩
  · intro hs ht helapsed
    have hres : cb.shouldAttemptReset now = true := by
      unfold CircuitBreaker.shouldAttemptReset
      rw [ht]
      simp [helapsed]
    have hcall : cb.call now expected f =
        CircuitBreaker.execCall { cb with state := .HALF_OPEN } now expected f := by
      unfold CircuitBreaker.call
      rw [if_pos hs, if_pos hres]
    exact ⟨hcall, by rw [hcall]; exact execCall_invoked _ _ _ _⟩
  · intro hst hsc hth
    have h := onSuccess_iterate cbh.success_threshold cbh hst (by omega) hth
    rw [h]
    exact ⟨rfl, rfl, rfl⟩
  · intro hst
    unfold CircuitBreaker.onFailure
    rw [if_pos (by simp [hst])]
    exact ⟨rfl, rfl⟩

/-- C4 witness: the recovery cycle evaluated on a concrete OPEN breaker 100
seconds after its last failure and on a concrete HALF_OPEN probe. -/
theorem C4_witness :
    (cbOpenEx.state = .OPEN ∧ cbOpenEx.last_failure_time = some 0 ∧
     cbOpenEx.recovery_timeout ≤ (100 : ℚ) - 0 ∧
     (cbOpenEx.call 100 (fun _ : Unit => true) (Except.ok (7 : Nat))).invoked = true) ∧
    (cbProbeEx.state = .HALF_OPEN ∧ cbProbeEx.success_count = 0 ∧
     1 ≤ cbProbeEx.success_threshold ∧
     (CircuitBreaker.onSuccess^[cbProbeEx.success_threshold] cbProbeEx).state = .CLOSED ∧
     (CircuitBreaker.onSuccess^[cbProbeEx.success_threshold] cbProbeEx).failure_count = 0 ∧
     (CircuitBreaker.onSuccess^[cbProbeEx.success_threshold] cbProbeEx).success_count = 0) ∧
    ((cbProbeEx.onFailure 100).state = .OPEN ∧ (cbProbeEx.onFailure 100).success_count = 0) :=
  ⟨⟨rfl, rfl, by norm_num [cbOpenEx],
    ((C4_recovery_cycle cbOpenEx cbProbeEx 100 0 (fun _ : Unit => true)
        (Except.ok (7 : Nat))).1 rfl rfl (by norm_num [cbOpenEx])).2⟩,
   ⟨rfl, rfl, by norm_num [cbProbeEx],
    (C4_recovery_cycle cbOpenEx cbProbeEx 100 0 (fun _ : Unit => true)
        (Except.ok (7 : Nat))).2.1 rfl rfl (by norm_num [cbProbeEx])⟩,
   (C4_recovery_cycle cbOpenEx cbProbeEx 100 0 (fun _ : Unit => true)
        (Except.ok (7 : Nat))).2.2 rfl⟩

/-- C10 counterexample: the OpenAI breaker opened purely by its rate-limit
handler has state OPEN and no recorded failure time, yet the next call — even
arbitrarily far in the future — is rejected without invoking the wrapped
function, because the overridden reset check returns false. -/
theorem C10_counterexample :
    oaRateLimited.base.state = .OPEN ∧
    oaRateLimited.base.last_failure_time = none ∧
    oaRateLimited.shouldAttemptReset 1000000 = false ∧
    (oaRateLimited.call 1000000 (Except.ok 0 : Except Unit Nat)).invoked = false :=
  ⟨rfl, rfl, rfl, rfl⟩

/-- C10 amended: a base breaker in OPEN with no recorded failure time admits
the very next call with no recovery wait; the OpenAI billing-error handler sets
the state to OPEN without touching last_failure_time; but an OpenAI breaker
whose rate-limit counter has reached its threshold never passes the overridden
reset check, so its next call is rejected rather than admitted. -/
theorem C10_amended {A E : Type} (cb : CircuitBreaker) (o : OpenAICircuitBreaker)
    (now : ℚ) (expected : E → Bool) (f : Except E A) (code : Option String) :
    (cb.state = .OPEN → cb.last_failure_time = none →
      cb.shouldAttemptReset now = true ∧ (cb.call now expected f).invoked = true) ∧
    (code = some "insufficient_quota" ∨ code = some "billing_hard_limit_reached" →
      (o.handleApiError now code).base.state = .OPEN ∧
      (o.handleApiError now code).base.last_failure_time = o.base.last_failure_time) ∧
    (o.base.state = .OPEN → o.rate_limit_threshold ≤ o.rate_limit_count →
      1 ≤ o.rate_limit_count →
      o.shouldAttemptReset now = false ∧
      o.call now f = (⟨o, .error .circuitOpenError, false⟩ : OACallOut A E)) := by
  refine ⟨?_, ?_, ?_⟩
  · intro hs hn
    have hres : cb.shouldAttemptReset now = true := by
      unfold CircuitBreaker.shouldAttemptReset
      rw [hn]
    refine ⟨hres, ?_⟩
    unfold CircuitBreaker.call
    rw [if_pos hs, if_pos hres]
    exact execCall_invoked _ _ _ _
  · intro hcode
    unfold OpenAICircuitBreaker.handleApiError
    rw [if_pos hcode]
    exact ⟨rfl, rfl⟩
  · intro hs hth h1
    have hres : o.shouldAttemptReset now = false := by
      unfold OpenAICircuitBreaker.shouldAttemptReset
      rw [if_neg (by simp [hs]), if_pos (by omega)]
      simp [not_lt.mpr hth]
    refine ⟨hres, ?_⟩
    unfold OpenAICircuitBreaker.call
    rw [if_pos hs, if_neg (by simp [hres])]

/-- C10 amended witness: evaluated on a concrete OPEN breaker with no failure
time and on the concrete rate-limit-opened OpenAI breaker. -/
theorem C10_amended_witness :
    (cbNoTimeEx.state = .OPEN ∧ cbNoTimeEx.last_failure_time = none ∧
     cbNoTimeEx.shouldAttemptReset 0 = true ∧
     (cbNoTimeEx.call 0 (fun _ : Unit => true) (Except.ok (3 : Nat))).invoked = true) ∧
    ((oaRateLimited.handleApiError 0 (some "insufficient_quota")).base.state = .OPEN ∧
     (oaRateLimited.handleApiError 0 (some "insufficient_quota")).base.last_failure_time =
       oaRateLimited.base.last_failure_time) ∧
    (oaRateLimited.base.state = .OPEN ∧
     oaRateLimited.rate_limit_threshold ≤ oaRateLimited.rate_limit_count ∧
     oaRateLimited.shouldAttemptReset 0 = false ∧
     oaRateLimited.call 0 (Except.ok 3 : Except Unit Nat) =
       ⟨oaRateLimited, .error .circuitOpenError, false⟩) :=
  ⟨(fun h => ⟨rfl, rfl, h.1, h.2⟩)
     ((C10_amended cbNoTimeEx oaRateLimited 0 (fun _ : Unit => true)
        (Except.ok (3 : Nat)) (some "insufficient_quota")).1 rfl rfl),
   (C10_amended cbNoTimeEx oaRateLimited 0 (fun _ : Unit => true)
        (Except.ok (3 : Nat)) (some "insufficient_quota")).2.1 (Or.inl rfl),
   (fun h => ⟨rfl, by decide, h.1, h.2⟩)
     ((C10_amended cbNoTimeEx oaRateLimited 0 (fun _ : Unit => true)
        (Except.ok (3 : Nat)) (some "insufficient_quota")).2.2 rfl (by decide) (by decide))⟩

/-! Retry decorator (src/ai-services/decorators/retry_decorator.py). -/

/-- The attempt loop of RetryDecorator._retry_execution, at the given 1-based
attempt with the given number of attempts remaining.  The wrapped function is
indexed by the attempt number; an error matching the exceptions tuple is
recorded as last_exception and retried, any other error propagates at once.
Returns the outcome (error none models the raise of the untouched
last_exception when max_attempts is 0) and the number of invocations made. -/
def retryAux {E A : Type} (caught : E → Bool) (f : Nat → Except E A) :
    Nat → Nat → Except (Option E) A × Nat
  | _, 0 => (.error none, 0)
  | attempt, r + 1 =>
    match f attempt with
    | .ok a => (.ok a, 1)
    | .error e =>
      if caught e then
        if r = 0 then (.error (some e), 1)
        else
          let rest := retryAux caught f (attempt + 1) r
          (rest.1, rest.2 + 1)
      else (.error (some e), 1)

/-- RetryDecorator._retry_execution with the given max_attempts. -/
def retryExecution {E A : Type} (caught : E → Bool) (maxAttempts : Nat)
    (f : Nat → Except E A) : Except (Option E) A × Nat :=
  retryAux caught f 1 maxAttempts

/-- The pre-jitter delay handed to _wait_before_retry before attempt k+1: the
current_delay variable starts at the configured delay and becomes
min(current_delay * backoff_multiplier, max_delay) after each wait. -/
def preJitterDelay (base mult maxD : ℚ) : Nat → ℚ
  | 0 => base
  | 1 => base
  | k + 2 => min (preJitterDelay base mult maxD (k + 1) * mult) maxD

/-- RetryDecorator._wait_before_retry: with jitter enabled the sleep is
delay + draw * delay where draw is the uniform sample from [0.1, 0.3]. -/
def waitBeforeRetry (jitter : Bool) (draw delay : ℚ) : ℚ :=
  if jitter then delay + draw * delay else delay

/-- A function failing on attempts 1 and 2 and succeeding from attempt 3 on. -/
def flakyF : Nat → Except Unit Nat := fun n => if 3 ≤ n then .ok 7 else .error ()

/-- C5: a wrapped function that fails twice then succeeds returns the success
value with exactly 3 invocations under maxAttempts 3, and raises the last
observed error with exactly 2 invocations under maxAttempts 2. -/
theorem C5_retry_attempts {E A : Type} (caught : E → Bool) (f : Nat → Except E A)
    (e1 e2 : E) (v : A)
    (h1 : f 1 = .error e1) (h2 : f 2 = .error e2) (h3 : f 3 = .ok v)
    (hc1 : caught e1 = true) (hc2 : caught e2 = true) :
    retryExecution caught 3 f = (.ok v, 3) ∧
    retryExecution caught 2 f = (.error (some e2), 2) := by
  unfold retryExecution
  constructor
  · simp [retryAux, h1, h2, h3, hc1, hc2]
  · simp [retryAux, h1, h2, hc1, hc2]

/-- C5 witness: the retry counts evaluated on the concrete fail-fail-succeed
function with every error caught. -/
theorem C5_witness :
    flakyF 1 = .error () ∧ flakyF 2 = .error () ∧ flakyF 3 = .ok 7 ∧
    (retryExecution (fun _ => true) 3 flakyF = (.ok 7, 3) ∧
     retryExecution (fun _ => true) 2 flakyF = (.error (some ()), 2)) :=
  ⟨rfl, rfl, rfl, C5_retry_attempts (fun _ => true) flakyF () () 7 rfl rfl rfl rfl rfl⟩

/-- C9 counterexample: with baseDelay 2, multiplier 2 and maxDelay 1 the
pre-jitter delay before attempt 2 (k = 1) is 2, while the claimed formula
min(baseDelay x multiplier^(k-1), maxDelay) gives 1 — the first delay is the
raw baseDelay, never clamped to maxDelay. -/
theorem C9_counterexample :
    preJitterDelay 2 2 1 1 = 2 ∧
    min ((2 : ℚ) * 2 ^ (1 - 1)) 1 = 1 ∧
    preJitterDelay 2 2 1 1 ≠ min ((2 : ℚ) * 2 ^ (1 - 1)) 1 := by
  refine ⟨rfl, by norm_num, ?_⟩
  rw [show preJitterDelay 2 2 1 1 = 2 from rfl]
  norm_num

/-- Closed form of the iterated delay when the base delay is within the cap
and the multiplier is at least 1. -/
theorem preJitterDelay_closed (base mult maxD : ℚ) (hbase : 0 ≤ base)
    (hbm : base ≤ maxD) (hmult : 1 ≤ mult) :
    ∀ k, 1 ≤ k → preJitterDelay base mult maxD k = min (base * mult ^ (k - 1)) maxD := by
  have h0 : 0 ≤ maxD := le_trans hbase hbm
  have hm0 : 0 ≤ mult := le_trans zero_le_one hmult
  intro k
  induction k with
  | zero => intro h; exact absurd h (by omega)
  | succ k ih =>
    intro _
    cases k with
    | zero => simp [preJitterDelay, min_eq_left hbm]
    | succ n =>
      have hp : 0 ≤ base * mult ^ n := mul_nonneg hbase (pow_nonneg hm0 n)
      have hstep : preJitterDelay base mult maxD (n + 2) =
          min (preJitterDelay base mult maxD (n + 1) * mult) maxD := by
        rw [preJitterDelay]
      rw [hstep, ih (by omega)]
      rw [show n + 1 - 1 = n from rfl, show n + 1 + 1 - 1 = n + 1 from rfl]
      rcases le_total (base * mult ^ n) maxD with h | h
      · rw [min_eq_left h, pow_succ, ← mul_assoc]
      · rw [min_eq_right h, pow_succ, ← mul_assoc]
        rw [min_eq_right (le_mul_of_one_le_right h0 hmult)]
        rw [min_eq_right (le_trans h (le_mul_of_one_le_right hp hmult))]

/-- C9 amended: under 0 ≤ baseDelay ≤ maxDelay and multiplier ≥ 1 the
pre-jitter delay before attempt k+1 is min(baseDelay x multiplier^(k-1),
maxDelay) (without baseDelay ≤ maxDelay the first delay is the raw baseDelay);
with jitter on, the sleep is delay + draw x delay, which lies within
[1.1 x delay, 1.3 x delay] for a draw in [0.1, 0.3]. -/
theorem C9_amended (base mult maxD draw d : ℚ) (k : Nat)
    (hbase : 0 ≤ base) (hbm : base ≤ maxD) (hmult : 1 ≤ mult) (hk : 1 ≤ k) :
    preJitterDelay base mult maxD k = min (base * mult ^ (k - 1)) maxD ∧
    waitBeforeRetry false draw d = d ∧
    waitBeforeRetry true draw d = d + draw * d ∧
    (1 / 10 ≤ draw → draw ≤ 3 / 10 → 0 ≤ d →
      d + d / 10 ≤ waitBeforeRetry true draw d ∧
      waitBeforeRetry true draw d ≤ d + 3 * d / 10) := by
  refine ⟨preJitterDelay_closed base mult maxD hbase hbm hmult k hk, rfl, rfl, ?_⟩
  intro h1 h3 hd
  rw [show waitBeforeRetry true draw d = d + draw * d from rfl]
  constructor
  · nlinarith [mul_le_mul_of_nonneg_right h1 hd]
  · nlinarith [mul_le_mul_of_nonneg_right h3 hd]

/-- C9 amended witness: the spec scenario baseDelay 100, multiplier 2,
maxDelay 1000: the pre-jitter delay before attempt 3 is 200, and a 0.2 jitter
draw turns a 200 delay into 240, within the [220, 260] band. -/
theorem C9_amended_witness :
    (0 : ℚ) ≤ 100 ∧ (100 : ℚ) ≤ 1000 ∧ (1 : ℚ) ≤ 2 ∧ 1 ≤ 2 ∧
    preJitterDelay 100 2 1000 2 = min ((100 : ℚ) * 2 ^ (2 - 1)) 1000 ∧
    min ((100 : ℚ) * 2 ^ (2 - 1)) 1000 = 200 ∧
    waitBeforeRetry true (1 / 5) 200 = 200 + (1 / 5) * 200 ∧
    (200 + (200 : ℚ) / 10 ≤ waitBeforeRetry true (1 / 5) 200 ∧
     waitBeforeRetry true (1 / 5) 200 ≤ 200 + 3 * 200 / 10) := by
  have h := C9_amended 100 2 1000 (1 / 5) 200 2 (by norm_num) (by norm_num)
    (by norm_num) (by norm_num)
  exact ⟨by norm_num, by norm_num, by norm_num, by norm_num, h.1, by norm_num,
    h.2.2.1, h.2.2.2 (by norm_num) (by norm_num) (by norm_num)⟩

/-! Cache decorator (src/ai-services/decorators/cache_decorator.py). -/

/-- The wrapper built by CacheDecorator.__call__, for one call on a key whose
current cached value is given (the cache store itself is modelled as
succeeding): a hit returns the cached value; on a miss the wrapped function
runs (invocation 1) and its result is cached; the except-branch catches any
error — including one raised by the wrapped function itself — and runs the
wrapped function once more (invocation 2), returning that outcome without
caching it.  Returns the outcome, the cached value afterwards, and how many
times the wrapped function ran. -/
def cacheWrapper {E V : Type} (cached : Option V) (f : Nat → Except E V) :
    Except E V × Option V × Nat :=
  match cached with
  | some v => (.ok v, some v, 0)
  | none =>
    match f 1 with
    | .ok v => (.ok v, some v, 1)
    | .error _ =>
      match f 2 with
      | .ok v => (.ok v, none, 2)
      | .error e2 => (.error e2, none, 2)

/-- A wrapped function raising a transient error on its first invocation and
succeeding on the second. -/
def flakyOnce : Nat → Except String Nat :=
  fun n => if n = 1 then .error "transient" else .ok 42

/-- A wrapped function that always raises. -/
def alwaysFails : Nat → Except String Nat := fun _ => .error "down"

/-- C8 -- evaluation of the cache wrapper on the failing inputs: on a cache
miss with a function that raises, the except-branch of CacheDecorator runs the
function a second time, so a transient first-invocation error is swallowed and
the success value of the second invocation is returned (2 invocations, nothing
cached); under a deterministic error the error does propagate but the function
has still been invoked twice.  This contradicts the claim that the wrapped
function is not invoked again by the cache layer. -/
theorem C8_cache_reinvokes :
    cacheWrapper none flakyOnce = (.ok 42, none, 2) ∧
    cacheWrapper none alwaysFails = (.error "down", none, 2) ∧
    cacheWrapper (some 7) flakyOnce = (.ok 7, some 7, 0) :=
  ⟨rfl, rfl, rfl⟩

/-! Result dictionaries for the strategy composites
(src/ai-services/factories/strategy_factory.py). -/

/-- A value in an analysis result dict: numeric (int or float) or other. -/
inductive Val where
  | num (q : ℚ)
  | str (s : String)
deriving DecidableEq, Repr

/-- A Python result dict: string keys in insertion order. -/
abbrev Dict := List (String × Val)

/-- Python dict lookup. -/
def getVal : Dict → String → Option Val
  | [], _ => none
  | (k, v) :: rest, key => if k = key then some v else getVal rest key

/-- Python dict assignment: overwrite the first binding or append. -/
def setVal : Dict → String → Val → Dict
  | [], key, v => [(key, v)]
  | (k, w) :: rest, key, v =>
    if k = key then (key, v) :: rest else (k, w) :: setVal rest key v

/-- Lookup after assignment at the same key. -/
theorem getVal_setVal_same (d : Dict) (k : String) (v : Val) :
    getVal (setVal d k v) k = some v := by
  induction d with
  | nil => simp [setVal, getVal]
  | cons kv rest ih =>
    obtain ⟨k1, v1⟩ := kv
    by_cases h : k1 = k
    · simp [setVal, h, getVal]
    · simp [setVal, h, getVal, ih]

/-- Lookup after assignment at a different key. -/
theorem getVal_setVal_ne (d : Dict) (k k2 : String) (v : Val) (h : k ≠ k2) :
    getVal (setVal d k v) k2 = getVal d k2 := by
  induction d with
  | nil => simp [setVal, getVal, h]
  | cons kv rest ih =>
    obtain ⟨k1, v1⟩ := kv
    by_cases h1 : k1 = k
    · subst h1
      simp [setVal, getVal, h]
    · simp [setVal, h1, getVal, ih]

/-! Fallback strategy (FallbackStrategy in strategy_factory.py). -/

/-- One candidate of the FallbackStrategy: the outcome of its analyze_symptoms
call, its get_strategy_name() and its get_confidence_score(). -/
structure FallbackCandidate (E : Type) where
  result : Except E Dict
  name : String
  confidence : ℚ

/-- The annotation applied to a successful result:
result["strategy_used"] = "fallback_<name>" and
result["strategy_confidence"] = confidence. -/
def annotateFallback (d : Dict) (name : String) (conf : ℚ) : Dict :=
  setVal (setVal d "strategy_used" (.str ("fallback_" ++ name)))
    "strategy_confidence" (.num conf)

/-- The loop of FallbackStrategy.analyze_symptoms with the running
last_error. -/
def fallbackAux {E : Type} (lastErr : Option E) :
    List (FallbackCandidate E) → Except (Option E) Dict
  | [] => .error lastErr
  | c :: rest =>
    match c.result with
    | .ok d => .ok (annotateFallback d c.name c.confidence)
    | .error e => fallbackAux (some e) rest

/-- FallbackStrategy.analyze_symptoms: try the candidates in order, return the
first annotated success, and raise referencing the last error when all fail. -/
def fallbackAnalyze {E : Type} (cs : List (FallbackCandidate E)) :
    Except (Option E) Dict :=
  fallbackAux none cs

/-- One failing candidate is skipped, keeping its error as last_error. -/
theorem fallbackAux_cons_error {E : Type} (le : Option E) (c : FallbackCandidate E)
    (cs : List (FallbackCandidate E)) (e : E) (he : c.result = .error e) :
    fallbackAux le (c :: cs) = fallbackAux (some e) cs := by
  show (match c.result with
    | .ok d => Except.ok (annotateFallback d c.name c.confidence)
    | .error e => fallbackAux (some e) cs) = fallbackAux (some e) cs
  rw [he]

/-- A successful candidate returns at once with the annotated result. -/
theorem fallbackAux_cons_ok {E : Type} (le : Option E) (c : FallbackCandidate E)
    (cs : List (FallbackCandidate E)) (d : Dict) (hok : c.result = .ok d) :
    fallbackAux le (c :: cs) = .ok (annotateFallback d c.name c.confidence) := by
  unfold fallbackAux
  rw [hok]

/-- Skipping a failing prefix reaches the first success. -/
theorem fallbackAux_skipFailing {E : Type} (pre : List (FallbackCandidate E)) :
    ∀ (le : Option E) (c : FallbackCandidate E) (rest : List (FallbackCandidate E))
      (d : Dict), (∀ x ∈ pre, ∃ e, x.result = .error e) → c.result = .ok d →
      fallbackAux le (pre ++ c :: rest) = .ok (annotateFallback d c.name c.confidence) := by
  induction pre with
  | nil =>
    intro le c rest d _ hok
    rw [List.nil_append, fallbackAux_cons_ok le c rest d hok]
  | cons p pre2 ih =>
    intro le c rest d hall hok
    obtain ⟨e, he⟩ := hall p (List.mem_cons_self p pre2)
    rw [List.cons_append, fallbackAux_cons_error le p _ e he]
    exact ih (some e) c rest d (fun x hx => hall x (List.mem_cons_of_mem p hx)) hok

/-- When every candidate fails, the loop raises the error of the last one. -/
theorem fallbackAux_all_fail {E : Type} (cs : List (FallbackCandidate E)) :
    ∀ le : Option E, (∀ x ∈ cs, ∃ e, x.result = .error e) → cs ≠ [] →
      ∃ clast e, cs.getLast? = some clast ∧ clast.result = .error e ∧
        fallbackAux le cs = .error (some e) := by
  induction cs with
  | nil => intro le _ h; exact absurd rfl h
  | cons c rest ih =>
    intro le hall _
    obtain ⟨e, he⟩ := hall c (List.mem_cons_self c rest)
    cases rest with
    | nil =>
      refine ⟨c, e, rfl, he, ?_⟩
      rw [fallbackAux_cons_error le c [] e he]
      rfl
    | cons c2 rest2 =>
      obtain ⟨clast, e2, hlast, herr, haux⟩ :=
        ih (some e) (fun x hx => hall x (List.mem_cons_of_mem c hx)) (by simp)
      refine ⟨clast, e2, ?_, herr, ?_⟩
      · rw [List.getLast?_cons_cons]
        exact hlast
      · rw [fallbackAux_cons_error le c _ e he]
        exact haux

/-- C6: the fallback composite returns the first successful strategy result,
annotated with strategy_used = "fallback_<name>" and that strategy confidence,
skipping every earlier failing strategy; and when all strategies fail it raises
an error referencing the last failure. -/
theorem C6_fallback_order {E : Type} (pre rest cs : List (FallbackCandidate E))
    (c : FallbackCandidate E) (d : Dict) :
    ((∀ x ∈ pre, ∃ e, x.result = .error e) → c.result = .ok d →
      fallbackAnalyze (pre ++ c :: rest) = .ok (annotateFallback d c.name c.confidence) ∧
      getVal (annotateFallback d c.name c.confidence) "strategy_used" =
        some (.str ("fallback_" ++ c.name)) ∧
      getVal (annotateFallback d c.name c.confidence) "strategy_confidence" =
        some (.num c.confidence)) ∧
    ((∀ x ∈ cs, ∃ e, x.result = .error e) → cs ≠ [] →
      ∃ clast e, cs.getLast? = some clast ∧ clast.result = .error e ∧
        fallbackAnalyze cs = .error (some e)) := by
  constructor
  · intro hall hok
    refine ⟨fallbackAux_skipFailing pre none c rest d hall hok, ?_, ?_⟩
    · unfold annotateFallback
      rw [getVal_setVal_ne _ _ _ _ (by decide), getVal_setVal_same]
    · unfold annotateFallback
      rw [getVal_setVal_same]
  · exact fallbackAux_all_fail cs none

/-- A failing remote strategy. -/
def candA : FallbackCandidate Unit := ⟨.error (), "openai", 9 / 10⟩

/-- A succeeding local strategy. -/
def candB : FallbackCandidate Unit := ⟨.ok [("diagnosis", .str "flu")], "local_model", 7 / 10⟩

/-- C6 witness: [A(fails), B(succeeds)] returns the B result annotated
fallback_local_model, and [A] alone raises referencing the A error. -/
theorem C6_witness :
    (fallbackAnalyze [candA, candB] =
      .ok (annotateFallback [("diagnosis", .str "flu")] candB.name candB.confidence) ∧
     getVal (annotateFallback [("diagnosis", .str "flu")] candB.name candB.confidence)
        "strategy_used" = some (.str ("fallback_" ++ candB.name)) ∧
     getVal (annotateFallback [("diagnosis", .str "flu")] candB.name candB.confidence)
        "strategy_confidence" = some (.num candB.confidence)) ∧
    (∃ clast e, ([candA] : List (FallbackCandidate Unit)).getLast? = some clast ∧
      clast.result = .error e ∧
      fallbackAnalyze [candA] = .error (some e)) :=
  ⟨(C6_fallback_order [candA] [] [candA] candB [("diagnosis", .str "flu")]).1
     (by
       intro x hx
       rw [List.mem_singleton] at hx
       subst hx
       exact ⟨(), rfl⟩)
     rfl,
   (C6_fallback_order [candA] [] [candA] candB [("diagnosis", .str "flu")]).2
     (by
       intro x hx
       rw [List.mem_singleton] at hx
       subst hx
       exact ⟨(), rfl⟩)
     (by simp)⟩

/-! Hybrid strategy (HybridStrategy in strategy_factory.py). -/

/-- One entry (key, value) of a sub-result folded into the combined dict with
the strategy weight: a key missing from combined is first initialized to 0;
a numeric value is accumulated as combined[key] + value * weight (if the
accumulator there is non-numeric Python raises TypeError, modelled as none);
a non-numeric value overwrites combined[key]. -/
def combineEntry (combined : Dict) (key : String) (value : Val) (weight : ℚ) :
    Option Dict :=
  let c1 := if (getVal combined key).isSome then combined
            else setVal combined key (.num 0)
  match value with
  | .num q =>
    match getVal c1 key with
    | some (.num c) => some (setVal c1 key (.num (c + q * weight)))
    | _ => none
  | .str s => some (setVal c1 key (.str s))

/-- The inner loop of _combine_results over the items of one sub-result. -/
def combineDict (combined : Dict) (weight : ℚ) : Dict → Option Dict
  | [] => some combined
  | (k, v) :: rest =>
    match combineEntry combined k v weight with
    | some c1 => combineDict c1 weight rest
    | none => none

/-- The outer loop of _combine_results over the weighted sub-results. -/
def combineResultsList (combined : Dict) : List (Dict × ℚ) → Option Dict
  | [] => some combined
  | (d, w) :: rest =>
    match combineDict combined w d with
    | some c1 => combineResultsList c1 rest
    | none => none

/-- HybridStrategy._combine_results: an empty result list yields the error
object; otherwise fold the weighted results into an empty dict and add the
strategy_used / strategy_confidence metadata (get_confidence_score() is
0.85). -/
def combineResults (results : List (Dict × ℚ)) : Option Dict :=
  if results.isEmpty then some [("error", .str "No strategies available")]
  else
    match combineResultsList [] results with
    | some c =>
      some (setVal (setVal c "strategy_used" (.str "hybrid"))
        "strategy_confidence" (.num (85 / 100)))
    | none => none

/-- The (result, weight) pairs of the strategies whose analyze_symptoms call
succeeded; a strategy that raises is skipped. -/
def successResults {E : Type} (pairs : List (Except E Dict × ℚ)) :
    List (Dict × ℚ) :=
  pairs.filterMap (fun p =>
    match p.1 with
    | .ok d => some (d, p.2)
    | .error _ => none)

/-- HybridStrategy.analyze_symptoms: combine the successful sub-results. -/
def hybridAnalyze {E : Type} (pairs : List (Except E Dict × ℚ)) : Option Dict :=
  combineResults (successResults pairs)

/-- The weight normalization done at HybridStrategy construction:
weights = [w / total_weight for w in weights]. -/
def normalizeWeights (ws : List ℚ) : List ℚ := ws.map (fun w => w / ws.sum)

/-- The kind of a dict value: numeric (taking the accumulate branch of
_combine_results) or not (taking the overwrite branch). -/
def valKind : Val → Bool
  | .num _ => true
  | .str _ => false

/-- Every value the combined dict holds at a numeric-kind key is numeric: the
invariant under which the += of _combine_results never hits a TypeError. -/
def numOk (kind : String → Bool) (combined : Dict) : Prop :=
  ∀ key v, kind key = true → getVal combined key = some v → ∃ q, v = Val.num q

/-- The weighted sum of the values a key receives from the contributing
sub-results (a result without the key contributes 0). -/
def weightedSum (results : List (Dict × ℚ)) (k : String) : ℚ :=
  (results.map (fun p =>
    match getVal p.1 k with
    | some (.num v) => v * p.2
    | _ => 0)).sum

/-- The value the combined dict holds at a key after folding in one sub-result
holding dv at that key, starting from cur. -/
def accStep (dv cur : Option Val) (w : ℚ) : Option Val :=
  match dv with
  | some (.num v) =>
    match cur with
    | some (.num q) => some (.num (q + v * w))
    | _ => some (.num (0 + v * w))
  | _ => cur

/-- accStep iterated over a list of weighted sub-results. -/
def accList (k : String) (cur : Option Val) : List (Dict × ℚ) → Option Val
  | [] => cur
  | (d, w) :: rest => accList k (accStep (getVal d k) cur w) rest

/-- A successful lookup returns one of the bindings of the dict. -/
theorem getVal_some_mem (d : Dict) (k : String) (v : Val)
    (h : getVal d k = some v) : (k, v) ∈ d := by
  induction d with
  | nil => cases h
  | cons kv rest ih =>
    obtain ⟨k1, v1⟩ := kv
    rw [show getVal ((k1, v1) :: rest) k = if k1 = k then some v1 else getVal rest k
        from rfl] at h
    by_cases h1 : k1 = k
    · rw [if_pos h1] at h
      injection h with h2
      subst h1
      subst h2
      exact List.mem_cons_self _ _
    · rw [if_neg h1] at h
      exact List.mem_cons_of_mem _ (ih h)

/-- A key outside the key list of a dict looks up to none. -/
theorem getVal_none_of_not_mem (d : Dict) (k : String)
    (h : k ∉ d.map Prod.fst) : getVal d k = none := by
  induction d with
  | nil => rfl
  | cons kv rest ih =>
    obtain ⟨k1, v1⟩ := kv
    rw [List.map_cons, List.mem_cons] at h
    push_neg at h
    rw [show getVal ((k1, v1) :: rest) k = if k1 = k then some v1 else getVal rest k
        from rfl, if_neg (fun hh => h.1 hh.symm)]
    exact ih h.2

/-- Folding one entry whose value has the kind of its key into a combined dict
respecting numOk succeeds, preserves numOk and every other key, and at the
entry key a numeric value accumulates by accStep (a non-numeric one takes the
overwrite branch, only possible at a non-numeric-kind key). -/
theorem combineEntry_mixed (kind : String → Bool) (combined : Dict)
    (key : String) (v : Val) (w : ℚ) (hv : valKind v = kind key)
    (hc : numOk kind combined) :
    ∃ c2, combineEntry combined key v w = some c2 ∧ numOk kind c2 ∧
      (∀ k2, k2 ≠ key → getVal c2 k2 = getVal combined k2) ∧
      (kind key = true → getVal c2 key = accStep (some v) (getVal combined key) w) := by
  rcases v with q1 | s1
  · have hk : kind key = true := by rw [← hv]; rfl
    cases hg : getVal combined key with
    | none =>
      refine ⟨setVal (setVal combined key (.num 0)) key (.num (0 + q1 * w)),
        ?_, ?_, ?_, ?_⟩
      · unfold combineEntry
        rw [hg]
        simp only [Option.isSome_none, Bool.false_eq_true, if_false,
          getVal_setVal_same]
      · intro key2 v2 hk2 hv2
        by_cases he : key2 = key
        · subst he
          rw [getVal_setVal_same] at hv2
          injection hv2 with h3
          exact ⟨_, h3.symm⟩
        · rw [getVal_setVal_ne _ _ _ _ (fun hh => he hh.symm),
            getVal_setVal_ne _ _ _ _ (fun hh => he hh.symm)] at hv2
          exact hc key2 v2 hk2 hv2
      · intro k2 hk2
        rw [getVal_setVal_ne _ _ _ _ (Ne.symm hk2),
          getVal_setVal_ne _ _ _ _ (Ne.symm hk2)]
      · intro _
        rw [getVal_setVal_same]
        rfl
    | some v0 =>
      obtain ⟨q, rfl⟩ := hc key v0 hk hg
      refine ⟨setVal combined key (.num (q + q1 * w)), ?_, ?_, ?_, ?_⟩
      · unfold combineEntry
        rw [hg]
        simp only [Option.isSome_some, if_true]
        rw [hg]
      · intro key2 v2 hk2 hv2
        by_cases he : key2 = key
        · subst he
          rw [getVal_setVal_same] at hv2
          injection hv2 with h3
          exact ⟨_, h3.symm⟩
        · rw [getVal_setVal_ne _ _ _ _ (fun hh => he hh.symm)] at hv2
          exact hc key2 v2 hk2 hv2
      · intro k2 hk2
        rw [getVal_setVal_ne _ _ _ _ (Ne.symm hk2)]
      · intro _
        rw [getVal_setVal_same]
        rfl
  · have hk : kind key = false := by rw [← hv]; rfl
    have hc1 : ∀ k2, k2 ≠ key →
        getVal (if (getVal combined key).isSome then combined
          else setVal combined key (.num 0)) k2 = getVal combined k2 := by
      intro k2 hk2
      split
      · rfl
      · exact getVal_setVal_ne _ _ _ _ (Ne.symm hk2)
    refine ⟨setVal (if (getVal combined key).isSome then combined
        else setVal combined key (.num 0)) key (.str s1), rfl, ?_, ?_, ?_⟩
    · intro key2 v2 hk2 hv2
      by_cases he : key2 = key
      · subst he
        rw [hk] at hk2
        exact Bool.noConfusion hk2
      · rw [getVal_setVal_ne _ _ _ _ (fun hh => he hh.symm), hc1 key2 he] at hv2
        exact hc key2 v2 hk2 hv2
    · intro k2 hk2
      rw [getVal_setVal_ne _ _ _ _ (Ne.symm hk2), hc1 k2 hk2]
    · intro h
      rw [hk] at h
      exact Bool.noConfusion h

/-- Folding one sub-result with distinct keys and key-consistent value kinds
into a numOk combined dict succeeds, preserves numOk, and the combined value at
every numeric-kind key follows accStep. -/
theorem combineDict_mixed (kind : String → Bool) (w : ℚ) :
    ∀ (d combined : Dict), numOk kind combined →
      (∀ kv ∈ d, valKind kv.2 = kind kv.1) →
      (d.map Prod.fst).Nodup →
      ∃ c1, combineDict combined w d = some c1 ∧ numOk kind c1 ∧
        ∀ k, kind k = true →
          getVal c1 k = accStep (getVal d k) (getVal combined k) w := by
  intro d
  induction d with
  | nil =>
    intro combined hc _ _
    exact ⟨combined, rfl, hc, fun k _ => rfl⟩
  | cons kv rest ih =>
    obtain ⟨k1, v1⟩ := kv
    intro combined hc hclean hnd
    rw [List.map_cons, List.nodup_cons] at hnd
    have hv1 : valKind v1 = kind k1 := hclean (k1, v1) (List.mem_cons_self _ _)
    obtain ⟨c2, hce, hc2, hother, hgk⟩ :=
      combineEntry_mixed kind combined k1 v1 w hv1 hc
    obtain ⟨c3, hcd, hc3, hg3⟩ :=
      ih c2 hc2 (fun kv hkv => hclean kv (List.mem_cons_of_mem _ hkv)) hnd.2
    refine ⟨c3, ?_, hc3, ?_⟩
    · show (match combineEntry combined k1 v1 w with
        | some c1 => combineDict c1 w rest
        | none => none) = some c3
      rw [hce]
      exact hcd
    · intro k hk
      by_cases hkk : k1 = k
      · subst hkk
        have hrest : getVal rest k1 = none :=
          getVal_none_of_not_mem rest k1 hnd.1
        rw [hg3 k1 hk, hrest]
        show getVal c2 k1 = _
        rw [hgk hk]
        rw [show getVal ((k1, v1) :: rest) k1 =
            if k1 = k1 then some v1 else getVal rest k1 from rfl, if_pos rfl]
      · rw [hg3 k hk, hother k (fun hh => hkk hh.symm)]
        rw [show getVal ((k1, v1) :: rest) k =
            if k1 = k then some v1 else getVal rest k from rfl, if_neg hkk]

/-- The outer fold over weighted sub-results with distinct keys and consistent
value kinds succeeds and the combined value at every numeric-kind key is the
iterated accStep. -/
theorem combineResultsList_mixed (kind : String → Bool) :
    ∀ (results : List (Dict × ℚ)) (combined : Dict), numOk kind combined →
      (∀ p ∈ results, (∀ kv ∈ p.1, valKind kv.2 = kind kv.1) ∧
        (p.1.map Prod.fst).Nodup) →
      ∃ c, combineResultsList combined results = some c ∧ numOk kind c ∧
        ∀ k, kind k = true → getVal c k = accList k (getVal combined k) results := by
  intro results
  induction results with
  | nil =>
    intro combined hc _
    exact ⟨combined, rfl, hc, fun k _ => rfl⟩
  | cons p rest ih =>
    obtain ⟨d, w⟩ := p
    intro combined hc hall
    obtain ⟨hdc, hdnd⟩ := hall (d, w) (List.mem_cons_self _ _)
    obtain ⟨c1, hcd, hc1, hg1⟩ := combineDict_mixed kind w d combined hc hdc hdnd
    obtain ⟨c, hcl, hcn, hg⟩ := ih c1 hc1 (fun p hp => hall p (List.mem_cons_of_mem _ hp))
    refine ⟨c, ?_, hcn, ?_⟩
    · show (match combineDict combined w d with
        | some c1 => combineResultsList c1 rest
        | none => none) = some c
      rw [hcd]
      exact hcl
    · intro k hk
      rw [hg k hk, hg1 k hk]
      rfl

/-- weightedSum unfolded over a cons. -/
theorem weightedSum_cons (d : Dict) (w : ℚ) (rest : List (Dict × ℚ)) (k : String) :
    weightedSum ((d, w) :: rest) k =
      (match getVal d k with | some (.num v) => v * w | _ => 0) + weightedSum rest k := by
  unfold weightedSum
  rw [List.map_cons, List.sum_cons]

/-- Starting from a numeric accumulator, the iterated accStep adds the
weighted sum of sub-results whose values at the key are numeric. -/
theorem accList_num (k : String) :
    ∀ (results : List (Dict × ℚ)) (q : ℚ),
      (∀ p ∈ results, ∀ v, getVal p.1 k = some v → ∃ q0, v = Val.num q0) →
      accList k (some (.num q)) results = some (.num (q + weightedSum results k)) := by
  intro results
  induction results with
  | nil =>
    intro q _
    show some (Val.num q) = some (.num (q + weightedSum [] k))
    rw [show weightedSum [] k = 0 from rfl, add_zero]
  | cons p rest ih =>
    obtain ⟨d, w⟩ := p
    intro q hall
    have hstep : accList k (some (.num q)) ((d, w) :: rest) =
        accList k (accStep (getVal d k) (some (.num q)) w) rest := rfl
    rw [hstep, weightedSum_cons]
    cases hg : getVal d k with
    | none =>
      rw [show accStep none (some (Val.num q)) w = some (Val.num q) from rfl]
      rw [ih q (fun p hp => hall p (List.mem_cons_of_mem _ hp))]
      congr 2
      ring
    | some v =>
      obtain ⟨v0, rfl⟩ := hall (d, w) (List.mem_cons_self _ _) v hg
      rw [show accStep (some (Val.num v0)) (some (Val.num q)) w =
          some (Val.num (q + v0 * w)) from rfl]
      rw [ih (q + v0 * w) (fun p hp => hall p (List.mem_cons_of_mem _ hp))]
      congr 2
      ring

/-- Starting from an absent key, once some sub-result actually holds the key
(numerically), the iterated accStep is exactly the weighted sum. -/
theorem accList_start (k : String) :
    ∀ results : List (Dict × ℚ),
      (∀ p ∈ results, ∀ v, getVal p.1 k = some v → ∃ q0, v = Val.num q0) →
      (∃ p ∈ results, (getVal p.1 k).isSome = true) →
      accList k none results = some (.num (weightedSum results k)) := by
  intro results
  induction results with
  | nil =>
    intro _ h
    obtain ⟨p, hp, _⟩ := h
    exact absurd hp (List.not_mem_nil p)
  | cons p rest ih =>
    obtain ⟨d, w⟩ := p
    intro hall hex
    have hstep : accList k none ((d, w) :: rest) =
        accList k (accStep (getVal d k) none w) rest := rfl
    rw [hstep, weightedSum_cons]
    cases hg : getVal d k with
    | none =>
      have hex2 : ∃ p ∈ rest, (getVal p.1 k).isSome = true := by
        obtain ⟨p2, hp2, hs⟩ := hex
        rcases List.mem_cons.mp hp2 with h | h
        · subst h
          rw [hg] at hs
          exact Bool.noConfusion hs
        · exact ⟨p2, h, hs⟩
      rw [show accStep none none w = none from rfl]
      rw [ih (fun p hp => hall p (List.mem_cons_of_mem _ hp)) hex2]
      congr 2
      ring
    | some v =>
      obtain ⟨v0, rfl⟩ := hall (d, w) (List.mem_cons_self _ _) v hg
      rw [show accStep (some (Val.num v0)) none w = some (Val.num (0 + v0 * w)) from rfl]
      rw [accList_num k rest (0 + v0 * w) (fun p hp => hall p (List.mem_cons_of_mem _ hp))]
      congr 2
      ring

/-- Sum of the elementwise division of a list. -/
theorem sum_map_div (l : List ℚ) (s : ℚ) :
    (l.map (fun w => w / s)).sum = l.sum / s := by
  induction l with
  | nil => simp
  | cons x xs ih =>
    rw [List.map_cons, List.sum_cons, List.sum_cons, ih, add_div]

/-- When every strategy raised, no (result, weight) pair survives. -/
theorem successResults_all_error {E : Type} (pairs : List (Except E Dict × ℚ))
    (h : ∀ p ∈ pairs, ∃ e, p.1 = Except.error e) : successResults pairs = [] := by
  induction pairs with
  | nil => rfl
  | cons p rest ih =>
    obtain ⟨e, he⟩ := h p (List.mem_cons_self _ _)
    show List.filterMap _ (p :: rest) = []
    rw [List.filterMap_cons]
    have hnone : (match p.1 with
        | Except.ok d => some (d, p.2)
        | Except.error _ => none) = none := by
      rw [he]
    rw [hnone]
    exact ih (fun x hx => h x (List.mem_cons_of_mem p hx))

/-- A realistic mixed sub-result: a numeric severity score, a string urgency
level, and a numeric strategy_confidence, as the source strategies return. -/
def dMixed : Dict :=
  [("severity_score", .num (1 / 2)), ("urgency_level", .str "medium"),
   ("strategy_confidence", .num (9 / 10))]

/-- One successful strategy returning the mixed sub-result with weight 1. -/
def mixedPairs : List (Except Unit Dict × ℚ) := [(Except.ok dMixed, 1)]

/-- C7 counterexample: strategy_confidence is a numeric-valued key present in
the successful sub-result (value 0.9, weight 1, weighted sum 0.9), yet the
combined result holds 0.85 there — _combine_results overwrites the metadata
keys strategy_used and strategy_confidence after the weighted combination, so
the claimed equality fails for every numeric-valued key. -/
theorem C7_counterexample :
    getVal dMixed "strategy_confidence" = some (.num (9 / 10)) ∧
    weightedSum (successResults mixedPairs) "strategy_confidence" = 9 / 10 * 1 ∧
    hybridAnalyze mixedPairs =
      some [("severity_score", .num (0 + 1 / 2 * 1)),
            ("urgency_level", .str "medium"),
            ("strategy_confidence", .num (85 / 100)),
            ("strategy_used", .str "hybrid")] ∧
    getVal [("severity_score", Val.num (0 + 1 / 2 * 1)),
            ("urgency_level", .str "medium"),
            ("strategy_confidence", .num (85 / 100)),
            ("strategy_used", .str "hybrid")] "strategy_confidence" =
      some (.num (85 / 100)) ∧
    (85 / 100 : ℚ) ≠ 9 / 10 * 1 := by
  refine ⟨rfl, ?_, rfl, rfl, by norm_num⟩
  rw [show weightedSum (successResults mixedPairs) "strategy_confidence" =
      9 / 10 * 1 + 0 from rfl]
  ring

/-- C7 amended: the weights are renormalized to sum to 1 at construction;
strategies that raise are excluded and an all-raise run returns an error
object instead of raising; and over type-consistent successful sub-results
(each key numeric everywhere or non-numeric everywhere, dict keys distinct),
every numeric-kind key other than the metadata keys strategy_used and
strategy_confidence combines to the sum of weight x value over the
contributing sub-results, while the metadata keys are always overwritten with
"hybrid" and 0.85 in the combined result. -/
theorem C7_amended {E : Type} (pairs : List (Except E Dict × ℚ)) (ws : List ℚ)
    (k : String) (kind : String → Bool) :
    (ws.sum ≠ 0 → (normalizeWeights ws).sum = 1) ∧
    ((∀ p ∈ pairs, ∃ e, p.1 = Except.error e) →
      hybridAnalyze pairs = some [("error", .str "No strategies available")]) ∧
    ((∀ p ∈ successResults pairs,
        (∀ kv ∈ p.1, valKind kv.2 = kind kv.1) ∧ (p.1.map Prod.fst).Nodup) →
      kind k = true → k ≠ "strategy_used" → k ≠ "strategy_confidence" →
      (∃ p ∈ successResults pairs, (getVal p.1 k).isSome = true) →
      ∃ c, hybridAnalyze pairs = some c ∧
        getVal c k = some (.num (weightedSum (successResults pairs) k)) ∧
        getVal c "strategy_used" = some (.str "hybrid") ∧
        getVal c "strategy_confidence" = some (.num (85 / 100))) := by
  refine ⟨?_, ?_, ?_⟩
  · intro hs
    rw [normalizeWeights, sum_map_div, div_self hs]
  · intro h
    unfold hybridAnalyze
    rw [successResults_all_error pairs h]
    rfl
  · intro hconsist hkk hk1 hk2 hex
    have hnum : ∀ p ∈ successResults pairs, ∀ v, getVal p.1 k = some v →
        ∃ q0, v = Val.num q0 := by
      intro p hp v hv
      have hm := getVal_some_mem p.1 k v hv
      have hkv := (hconsist p hp).1 (k, v) hm
      rcases v with q | s
      · exact ⟨q, rfl⟩
      · rw [hkk] at hkv
        exact Bool.noConfusion hkv
    obtain ⟨c0, hclist, hc0n, hg0⟩ :=
      combineResultsList_mixed kind (successResults pairs) []
        (fun key v _ h => Option.noConfusion h) hconsist
    have hne : (successResults pairs).isEmpty = false := by
      obtain ⟨p, hp, _⟩ := hex
      cases hsr : successResults pairs with
      | nil =>
        rw [hsr] at hp
        exact absurd hp (List.not_mem_nil p)
      | cons x xs => rfl
    refine ⟨setVal (setVal c0 "strategy_used" (.str "hybrid"))
      "strategy_confidence" (.num (85 / 100)), ?_, ?_, ?_, ?_⟩
    · unfold hybridAnalyze combineResults
      rw [hne]
      simp only [Bool.false_eq_true, if_false]
      rw [hclist]
    · rw [getVal_setVal_ne _ _ _ _ (Ne.symm hk2),
        getVal_setVal_ne _ _ _ _ (Ne.symm hk1), hg0 k hkk]
      exact accList_start k (successResults pairs) hnum hex
    · rw [getVal_setVal_ne _ _ _ _ (by decide), getVal_setVal_same]
    · rw [getVal_setVal_same]

/-- The first mixed sub-result of the amended example, weight 0.6. -/
def dM1 : Dict := [("x", .num 10), ("urgency_level", .str "high")]

/-- The second mixed sub-result of the amended example, weight 0.4. -/
def dM2 : Dict :=
  [("x", .num 20), ("urgency_level", .str "low"), ("note", .str "nb")]

/-- Two successful mixed-dict strategies around one that raises. -/
def mixedPairs2 : List (Except Unit Dict × ℚ) :=
  [(Except.ok dM1, 3 / 5), (Except.error (), 1), (Except.ok dM2, 2 / 5)]

/-- The key kinds of the amended example: only x is numeric. -/
def kindX : String → Bool := fun key => key == "x"

/-- C7 amended witness: weights [3, 2] normalize to sum 1; over the two mixed
sub-results (the raising strategy excluded), x combines to
10 x 0.6 + 20 x 0.4 = 14 and the metadata keys read "hybrid" and 0.85. -/
theorem C7_amended_witness :
    ([3, 2] : List ℚ).sum ≠ 0 ∧
    (normalizeWeights [3, 2]).sum = 1 ∧
    (∃ c, hybridAnalyze mixedPairs2 = some c ∧
      getVal c "x" = some (.num (weightedSum (successResults mixedPairs2) "x")) ∧
      getVal c "strategy_used" = some (.str "hybrid") ∧
      getVal c "strategy_confidence" = some (.num (85 / 100))) ∧
    weightedSum (successResults mixedPairs2) "x" = 14 := by
  refine ⟨by norm_num, ?_, ?_, ?_⟩
  · exact (C7_amended mixedPairs2 [3, 2] "x" kindX).1 (by norm_num)
  · refine (C7_amended mixedPairs2 [3, 2] "x" kindX).2.2 ?_ rfl (by decide)
      (by decide) ?_
    · intro p hp
      have hp2 : p ∈ [(dM1, (3 : ℚ) / 5), (dM2, 2 / 5)] := hp
      rcases List.mem_cons.mp hp2 with h | h
      · subst h
        exact ⟨by decide, by decide⟩
      · rw [List.mem_singleton] at h
        subst h
        exact ⟨by decide, by decide⟩
    · exact ⟨(dM1, 3 / 5), by simp [successResults, mixedPairs2], rfl⟩
  · rw [show weightedSum (successResults mixedPairs2) "x" =
        10 * (3 / 5) + (20 * (2 / 5) + 0) from rfl]
    norm_num

end RespSys
